import Mathlib

/-
Verification of the retrieval-index / chunking / validation core of the
KPMG_Home_Assignmemt repository, shallowly embedded in Lean 4.

Conventions of the embedding:
* Python `str` values that are sliced and indexed are modelled as `List Char`
  (a Python string is a sequence of code points).
* Python's truncating slice `text[s:e]` becomes `slice`.
* The `while` loop of `chunk_text` is modelled with explicit fuel; a `none`
  result means the loop did not finish within the given fuel.  The source
  contains no assertion or validation, so a parameter combination on which the
  Python loop diverges is modelled by `none` (for every fuel), never by an
  error value.
* Machine floats are modelled as exact numbers (`ℚ` for scores that are
  compared, `ℝ` where the source takes a square root); the claims proved here
  do not depend on rounding.
-/

namespace KPMG

/-- Python slice `t[s:e]` (with `0 ≤ s ≤ e`), clipped to the length of `t`. -/
def slice (t : List Char) (s e : ℕ) : List Char :=
  (t.drop s).take (e - s)

/-- The window positions produced by the `while` loop of `chunk_text`
(`rag_index.py` lines 49-57, `embed_texts.py` lines 29-35): starting at
`start`, each iteration records the window `(start, min len (start+maxChars))`
and, unless that window reaches the end of the text, continues from
`end - overlap` (natural subtraction, matching Python's `max(0, end-overlap)`).
Fuel-indexed; `none` models a loop that has not terminated within `fuel`
iterations. -/
def chunkLoop (maxChars overlap len : ℕ) : ℕ → ℕ → Option (List (ℕ × ℕ))
  | 0, _ => none
  | fuel + 1, start =>
    let e := min len (start + maxChars)
    if len ≤ e then some [(start, e)]
    else (chunkLoop maxChars overlap len fuel (e - overlap)).map
      (fun rs => (start, e) :: rs)

/-- The covered ranges of the chunks of a text of length `len`:
the early-return branch for `len ≤ maxChars`, otherwise the loop starting at
`0` with fuel `len + 1` (enough fuel whenever the Python loop terminates). -/
def chunk_ranges (len maxChars overlap : ℕ) : Option (List (ℕ × ℕ)) :=
  if len ≤ maxChars then some [(0, len)]
  else chunkLoop maxChars overlap len (len + 1) 0

/-- `chunk_text` from `rag_index.py` (identical code in `embed_texts.py` up to
the equivalent loop-exit test `end == len` vs `end >= len`): returns `[text]`
when the text fits in one window, otherwise the list of slices described by
`chunk_ranges`.  `none` models non-termination of the source loop. -/
def chunk_text (t : List Char) (maxChars overlap : ℕ) : Option (List (List Char)) :=
  if t.length ≤ maxChars then some [t]
  else (chunkLoop maxChars overlap t.length (t.length + 1) 0).map
    (fun rs => rs.map (fun r => slice t r.1 r.2))

/-- Position `p` lies inside the half-open window `r`. -/
def inRange (r : ℕ × ℕ) (p : ℕ) : Prop := r.1 ≤ p ∧ p < r.2

/-- Everything the claims need about a terminating run of the chunk loop:
it returns windows that exactly cover `[start, len)`, whose bounds are within
the text, whose first window starts at `start`, and in which every window
followed by another one has width exactly `maxChars` and hands the next window
a start of `end - overlap`. -/
theorem chunkLoop_sound (maxChars overlap len : ℕ) (hov : overlap < maxChars) :
    ∀ fuel start, start < len → len - start < fuel →
      ∃ rs, chunkLoop maxChars overlap len fuel start = some rs ∧
        (∀ p, (start ≤ p ∧ p < len) ↔ ∃ r ∈ rs, inRange r p) ∧
        (∀ r ∈ rs, start ≤ r.1 ∧ r.1 < r.2 ∧ r.2 ≤ len) ∧
        (∃ e0 rest, rs = (start, e0) :: rest) ∧
        List.Chain' (fun a b => a.2 = a.1 + maxChars ∧ b.1 = a.2 - overlap) rs := by
  intro fuel
  induction fuel with
  | zero => intro start h1 h2; omega
  | succ fuel ih =>
    intro start hstart hfuel
    by_cases hend : len ≤ min len (start + maxChars)
    · have he : min len (start + maxChars) = len := by omega
      refine ⟨[(start, min len (start + maxChars))], ?_, ?_, ?_, ?_, ?_⟩
      · simp [chunkLoop, hend]
      · intro p
        constructor
        · intro hp
          exact ⟨(start, min len (start + maxChars)), by simp, hp.1, by omega⟩
        · rintro ⟨r, hr, h1, h2⟩
          simp at hr
          subst hr
          exact ⟨h1, by simpa [inRange, he] using h2⟩
      · intro r hr
        simp at hr
        subst hr
        refine ⟨le_refl _, by omega, by omega⟩
      · exact ⟨_, [], rfl⟩
      · simp
    · have he : min len (start + maxChars) = start + maxChars := by omega
      have hlt : start + maxChars < len := by omega
      have hstart' : start + maxChars - overlap < len := by omega
      have hfuel' : len - (start + maxChars - overlap) < fuel := by omega
      obtain ⟨rs', hrs', hcov', hbnd', ⟨e0', rest', hhead'⟩, hchain'⟩ :=
        ih (start + maxChars - overlap) hstart' hfuel'
      refine ⟨(start, start + maxChars) :: rs', ?_, ?_, ?_, ?_, ?_⟩
      · simp only [chunkLoop, he]
        rw [if_neg (by omega : ¬ len ≤ start + maxChars), hrs']
        rfl
      · intro p
        constructor
        · intro hp
          by_cases hpe : p < start + maxChars
          · exact ⟨(start, start + maxChars), by simp, hp.1, hpe⟩
          · obtain ⟨r, hr, hrp⟩ := (hcov' p).mp ⟨by omega, hp.2⟩
            exact ⟨r, by simp [hr], hrp⟩
        · rintro ⟨r, hr, h1, h2⟩
          rcases List.mem_cons.mp hr with h | h
          · subst h
            exact ⟨h1, by omega⟩
          · have := (hcov' p).mpr ⟨r, h, h1, h2⟩
            exact ⟨by omega, this.2⟩
      · intro r hr
        rcases List.mem_cons.mp hr with h | h
        · subst h
          exact ⟨le_refl _, by omega, by omega⟩
        · have := hbnd' r h
          exact ⟨by omega, this.2.1, this.2.2⟩
      · exact ⟨start + maxChars, rs', rfl⟩
      · rw [List.chain'_cons']
        refine ⟨?_, hchain'⟩
        intro y hy
        subst hhead'
        simp at hy
        subst hy
        exact ⟨rfl, rfl⟩

/-- C9: for every text `t` with `len(t) <= maxChars`, `chunk_text` returns the
single-element sequence `[t]` exactly (including the empty text). -/
theorem chunk_text_small (t : List Char) (maxChars overlap : ℕ)
    (h : t.length ≤ maxChars) :
    chunk_text t maxChars overlap = some [t] := by
  simp [chunk_text, h]

/-- Witness for `chunk_text_small` at the two-character text `"hi"` (and the
hypothesis also holds for the empty text). -/
theorem chunk_text_small_witness :
    (['h', 'i'] : List Char).length ≤ 1100 ∧
      chunk_text ['h', 'i'] 1100 200 = some [['h', 'i']] :=
  ⟨by decide, chunk_text_small ['h', 'i'] 1100 200 (by decide)⟩

/-- Supporting fact (not itself one of the claims): when `overlap ≥ maxChars`
and the text is longer than one window, the source loop never terminates —
`chunkLoop` returns `none` for every amount of fuel.  The code neither asserts
nor validates `overlap < maxChars`; it simply diverges. -/
theorem chunkLoop_no_fuel_suffices :
    ∀ fuel, chunkLoop 1 1 2 fuel 0 = none := by
  intro fuel
  induction fuel with
  | zero => rfl
  | succ n ih => simp [chunkLoop, ih]

/-- C3 counterexample: `chunk_text` does not assert or validate the
precondition `overlap < maxChars`; called with `overlap = maxChars = 1` on a
text of length 2 it produces no value at all (the source loop diverges, see
`chunkLoop_no_fuel_suffices`), rather than raising a validation error. -/
theorem chunk_text_not_validated :
    chunk_text ['a', 'a'] 1 1 = none := by
  decide

/-- C3 amended: `overlap < maxChars` is a necessary precondition that the code
does NOT assert or validate (it diverges when the precondition fails on a long
text); under `overlap < maxChars` the chunker terminates and the union of the
covered ranges of its windows is exactly `[0, len(text))`, every window lying
inside the text. -/
theorem chunk_text_terminates_covers (t : List Char) (maxChars overlap : ℕ)
    (hov : overlap < maxChars) :
    ∃ rs, chunk_ranges t.length maxChars overlap = some rs ∧
      chunk_text t maxChars overlap = some (rs.map (fun r => slice t r.1 r.2)) ∧
      (∀ p, p < t.length ↔ ∃ r ∈ rs, inRange r p) ∧
      (∀ r ∈ rs, r.2 ≤ t.length) := by
  by_cases h : t.length ≤ maxChars
  · refine ⟨[(0, t.length)], by simp [chunk_ranges, h], ?_, ?_, ?_⟩
    · simp [chunk_text, h, slice]
    · intro p
      constructor
      · intro hp
        exact ⟨(0, t.length), by simp, Nat.zero_le _, hp⟩
      · rintro ⟨r, hr, h1, h2⟩
        simp at hr
        subst hr
        exact h2
    · intro r hr
      simp at hr
      subst hr
      simp
  · have hlen : 0 < t.length := by omega
    obtain ⟨rs, hrs, hcov, hbnd, -, -⟩ :=
      chunkLoop_sound maxChars overlap t.length hov (t.length + 1) 0 hlen (by omega)
    refine ⟨rs, by simp [chunk_ranges, h, hrs], by simp [chunk_text, h, hrs], ?_, ?_⟩
    · intro p
      rw [← hcov p]
      omega
    · intro r hr
      exact (hbnd r hr).2.2

/-- Witness for `chunk_text_terminates_covers` at `maxChars = 3`,
`overlap = 1`. -/
theorem chunk_text_terminates_covers_witness :
    (1 : ℕ) < 3 ∧
      ∃ rs, chunk_ranges (['a', 'b', 'c', 'd', 'e'] : List Char).length 3 1 = some rs ∧
        chunk_text ['a', 'b', 'c', 'd', 'e'] 3 1 = some (rs.map (fun r => slice ['a', 'b', 'c', 'd', 'e'] r.1 r.2)) ∧
        (∀ p, p < (['a', 'b', 'c', 'd', 'e'] : List Char).length ↔ ∃ r ∈ rs, inRange r p) ∧
        (∀ r ∈ rs, r.2 ≤ (['a', 'b', 'c', 'd', 'e'] : List Char).length) :=
  ⟨by decide, chunk_text_terminates_covers ['a', 'b', 'c', 'd', 'e'] 3 1 (by decide)⟩

/-- C4: consecutive chunks share `overlap` characters — the last `overlap`
characters of chunk `i` equal the first `overlap` characters of chunk `i+1`
whenever chunk `i+1` is not the final (possibly shorter) tail chunk. -/
theorem chunk_text_overlap_eq (t : List Char) (maxChars overlap : ℕ)
    (hov : overlap < maxChars) (cs : List (List Char)) (i : ℕ)
    (hcs : chunk_text t maxChars overlap = some cs)
    (hi : i + 2 < cs.length) :
    (cs.getD i []).drop ((cs.getD i []).length - overlap) =
      (cs.getD (i + 1) []).take overlap := by
  by_cases h : t.length ≤ maxChars
  · simp [chunk_text, h] at hcs
    subst hcs
    simp at hi
  · have hlen : 0 < t.length := by omega
    obtain ⟨rs, hrs, hcov, hbnd, -, hchain⟩ :=
      chunkLoop_sound maxChars overlap t.length hov (t.length + 1) 0 hlen (by omega)
    simp only [chunk_text, if_neg h, hrs, Option.map_some', Option.some.injEq] at hcs
    subst hcs
    rw [List.length_map] at hi
    have h1 : i < rs.length - 1 := by omega
    have h2 : i + 1 < rs.length - 1 := by omega
    have hil : i < rs.length := by omega
    have hi1l : i + 1 < rs.length := by omega
    have hR1 := List.chain'_iff_get.mp hchain i h1
    have hR2 := List.chain'_iff_get.mp hchain (i + 1) h2
    have hb1 := hbnd (rs.get ⟨i, hil⟩) (rs.get_mem _ _)
    have hb2 := hbnd (rs.get ⟨i + 1, hi1l⟩) (rs.get_mem _ _)
    have hg1 : (rs.map (fun r => slice t r.1 r.2)).getD i [] =
        slice t (rs.get ⟨i, hil⟩).1 (rs.get ⟨i, hil⟩).2 := by
      rw [List.getD_eq_getElem _ _ (by simpa using hil), List.getElem_map]
      rfl
    have hg2 : (rs.map (fun r => slice t r.1 r.2)).getD (i + 1) [] =
        slice t (rs.get ⟨i + 1, hi1l⟩).1 (rs.get ⟨i + 1, hi1l⟩).2 := by
      rw [List.getD_eq_getElem _ _ (by simpa using hi1l), List.getElem_map]
      rfl
    rw [hg1, hg2]
    set s := (rs.get ⟨i, hil⟩).1 with hs
    set e := (rs.get ⟨i, hil⟩).2 with he
    set s' := (rs.get ⟨i + 1, hi1l⟩).1 with hs'
    set e' := (rs.get ⟨i + 1, hi1l⟩).2 with he'
    have hee : e = s + maxChars := hR1.1
    have hss' : s' = e - overlap := hR1.2
    have hee' : e' = s' + maxChars := hR2.1
    have heln : e ≤ t.length := hb1.2.2
    have hst : s < e := hb1.2.1
    have he'ln : e' ≤ t.length := hb2.2.2
    have hslice_len : (slice t s e).length = maxChars := by
      simp only [slice, List.length_take, List.length_drop]
      omega
    rw [hslice_len]
    simp only [slice]
    rw [List.drop_take, List.drop_drop, List.take_take]
    have hx : s + (maxChars - overlap) = s' := by omega
    have hy : e - s - (maxChars - overlap) = overlap := by omega
    have hz : min overlap (e' - s') = overlap := by
      have : e' - s' = maxChars := by omega
      omega
    rw [hx, hy, hz]

/-- Witness for `chunk_text_overlap_eq` at text `"abcdefgh"`, `maxChars = 3`,
`overlap = 1`, chunk pair `(0, 1)`: the chunks are
`["abc", "cde", "efg", "gh"]` and chunk 0 ends with the `"c"` that chunk 1
starts with. -/
theorem chunk_text_overlap_eq_witness :
    (1 : ℕ) < 3 ∧
      chunk_text ['a', 'b', 'c', 'd', 'e', 'f', 'g', 'h'] 3 1 =
        some [['a', 'b', 'c'], ['c', 'd', 'e'], ['e', 'f', 'g'], ['g', 'h']] ∧
      (0 : ℕ) + 2 <
        ([['a', 'b', 'c'], ['c', 'd', 'e'], ['e', 'f', 'g'], ['g', 'h']] : List (List Char)).length ∧
      (([['a', 'b', 'c'], ['c', 'd', 'e'], ['e', 'f', 'g'], ['g', 'h']] : List (List Char)).getD 0 []).drop
          ((([['a', 'b', 'c'], ['c', 'd', 'e'], ['e', 'f', 'g'], ['g', 'h']] : List (List Char)).getD 0 []).length - 1) =
        (([['a', 'b', 'c'], ['c', 'd', 'e'], ['e', 'f', 'g'], ['g', 'h']] : List (List Char)).getD 1 []).take 1 :=
  ⟨by decide, by decide, by decide,
    chunk_text_overlap_eq ['a', 'b', 'c', 'd', 'e', 'f', 'g', 'h'] 3 1 (by decide)
      [['a', 'b', 'c'], ['c', 'd', 'e'], ['e', 'f', 'g'], ['g', 'h']] 0 (by decide) (by decide)⟩

/-- One search result, mirroring the dict built by `search` in `rag_index.py`
(lines 103-110) and `rag_search` in `server.py` (lines 173-182). -/
structure Hit where
  score : ℚ
  text : String
  source : String
  chunk_id : ℕ

/-- The loaded index: the three parallel arrays of the persisted index file.
Scores are exact numbers; the ordering claims proved below do not depend on
floating-point rounding. -/
structure RagIndex where
  vectors : List (List ℚ)
  chunks : List String
  metas : List (String × ℕ)

/-- Dot product `vecs[i] @ q` (summing over the common length, as NumPy does
for equal-dimension vectors). -/
def dot (v w : List ℚ) : ℚ :=
  ((v.zip w).map (fun p => p.1 * p.2)).sum

/-- `sims = (vecs @ q).tolist()`: one similarity score per stored vector. -/
def sims (idx : RagIndex) (qv : List ℚ) : List ℚ :=
  idx.vectors.map (fun v => dot v qv)

/-- `sims[i]`, totalised with default `0` (all accesses proved below stay in
bounds). -/
def simsD (s : List ℚ) (i : ℕ) : ℚ := s.getD i 0

/-- The order in which Python's stable
`sorted(range(len(sims)), key=lambda i: sims[i], reverse=True)` lists the
positions: higher score first, and for equal scores the earlier position
first.  On the duplicate-free input `range n` the stable descending sort's
output is exactly the unique permutation sorted by this linear order. -/
def rankRel (s : List ℚ) (i j : ℕ) : Prop :=
  simsD s j < simsD s i ∨ (simsD s i = simsD s j ∧ i ≤ j)

instance (s : List ℚ) : DecidableRel (rankRel s) := fun i j => by
  unfold rankRel
  infer_instance

instance (s : List ℚ) : IsTotal ℕ (rankRel s) where
  total i j := by
    rcases lt_trichotomy (simsD s i) (simsD s j) with h | h | h
    · exact Or.inr (Or.inl h)
    · rcases Nat.le_total i j with hij | hij
      · exact Or.inl (Or.inr ⟨h, hij⟩)
      · exact Or.inr (Or.inr ⟨h.symm, hij⟩)
    · exact Or.inl (Or.inl h)

instance (s : List ℚ) : IsTrans ℕ (rankRel s) where
  trans i j k hij hjk := by
    rcases hij with h1 | ⟨h1, h1'⟩
    · rcases hjk with h2 | ⟨h2, h2'⟩
      · exact Or.inl (h2.trans h1)
      · exact Or.inl (h2 ▸ h1)
    · rcases hjk with h2 | ⟨h2, h2'⟩
      · exact Or.inl (h1 ▸ h2)
      · exact Or.inr ⟨h1.trans h2, h1'.trans h2'⟩

/-- `top_idx = sorted(range(len(sims)), key=lambda i: sims[i], reverse=True)[:k]`. -/
def top_idx (s : List ℚ) (k : ℕ) : List ℕ :=
  (List.insertionSort (rankRel s) (List.range s.length)).take k

/-- `search(index, query, k)` of `rag_index.py` (and the identical ranking of
`rag_search` in `server.py`), taking the embedded-and-normalised query vector
(the output of the external embedding call, scaled by the positive factor
`1 / (norm + 1e-10)`, which does not change any comparison) as its argument. -/
def search (idx : RagIndex) (qv : List ℚ) (k : ℕ) : List Hit :=
  (top_idx (sims idx qv) k).map (fun i =>
    { score := simsD (sims idx qv) i
      text := idx.chunks.getD i ""
      source := (idx.metas.getD i ("", 0)).1
      chunk_id := (idx.metas.getD i ("", 0)).2 })

/-- C1: for every loaded index with `n` stored vectors, every (embedded)
query and every `k`, `search` returns `min k n` results whose scores are
non-increasing, and the positions it ranks are ordered so that among equal
scores the smaller original position comes first. -/
theorem search_spec (idx : RagIndex) (qv : List ℚ) (k : ℕ) :
    (search idx qv k).length = min k idx.vectors.length ∧
    List.Pairwise (fun a b : Hit => b.score ≤ a.score) (search idx qv k) ∧
    List.Pairwise (fun i j => simsD (sims idx qv) j ≤ simsD (sims idx qv) i ∧
      (simsD (sims idx qv) i = simsD (sims idx qv) j → i < j))
      (top_idx (sims idx qv) k) := by
  have hn : (sims idx qv).length = idx.vectors.length := by
    simp [sims]
  have hperm := List.perm_insertionSort (rankRel (sims idx qv))
    (List.range (sims idx qv).length)
  have hsorted := List.sorted_insertionSort (rankRel (sims idx qv))
    (List.range (sims idx qv).length)
  have hnodup : (List.insertionSort (rankRel (sims idx qv))
      (List.range (sims idx qv).length)).Nodup :=
    hperm.nodup_iff.mpr (List.nodup_range _)
  have htake_pw : List.Pairwise (rankRel (sims idx qv)) (top_idx (sims idx qv) k) :=
    List.Pairwise.sublist (List.take_sublist _ _) hsorted
  have htake_nd : List.Pairwise (fun i j : ℕ => i ≠ j) (top_idx (sims idx qv) k) :=
    List.Pairwise.sublist (List.take_sublist _ _) hnodup
  have hmain : List.Pairwise (fun i j => simsD (sims idx qv) j ≤ simsD (sims idx qv) i ∧
      (simsD (sims idx qv) i = simsD (sims idx qv) j → i < j))
      (top_idx (sims idx qv) k) := by
    refine (htake_pw.and htake_nd).imp ?_
    rintro i j ⟨hr, hne⟩
    rcases hr with h | ⟨h, hle⟩
    · refine ⟨le_of_lt h, fun he => absurd he.symm (ne_of_lt h)⟩
    · exact ⟨le_of_eq h.symm, fun _ => lt_of_le_of_ne hle hne⟩
  refine ⟨?_, ?_, hmain⟩
  · have hlen : (List.insertionSort (rankRel (sims idx qv))
        (List.range (sims idx qv).length)).length = (sims idx qv).length := by
      rw [hperm.length_eq, List.length_range]
    simp only [search, List.length_map, top_idx, List.length_take]
    rw [hlen, hn]
  · simp only [search, List.pairwise_map]
    exact hmain.imp (fun h => h.1)

/-- The characters Python's `str.strip()` removes (ASCII whitespace; the
further Unicode spaces Python also strips play no role in the claims). -/
def isPySpace (c : Char) : Bool :=
  c == ' ' || c == '\t' || c == '\n' || c == '\r' || c == '\x0b' || c == '\x0c'

/-- Python `str.strip()`: drop leading and trailing whitespace. -/
def pyStrip (l : List Char) : List Char :=
  ((l.dropWhile isPySpace).reverse.dropWhile isPySpace).reverse

/-- Worker for `pySplitlines`: accumulates the current line (reversed). -/
def pySplitlinesGo : List Char → List Char → List (List Char)
  | [], cur => if cur = [] then [] else [cur.reverse]
  | c :: cs, cur =>
    if c = '\n' then cur.reverse :: pySplitlinesGo cs []
    else pySplitlinesGo cs (c :: cur)

/-- Python `str.splitlines()` restricted to `'\n'` terminators (the only
terminator the pipeline itself produces): splits at every newline and drops a
trailing empty segment, so `"".splitlines() = []` and
`"a\n".splitlines() = ["a"]`. -/
def pySplitlines (l : List Char) : List (List Char) :=
  pySplitlinesGo l []

/-- `re.sub(r"\n{2,}", "\n", text)` of `html_to_text.py` line 22: every
maximal run of newlines becomes a single newline (a run of length one is
already a single newline). -/
def collapseNewlines : List Char → List Char
  | [] => []
  | c :: cs =>
    if c = '\n' then '\n' :: collapseNewlines (cs.dropWhile (· = '\n'))
    else c :: collapseNewlines cs
  termination_by l => l.length
  decreasing_by
    · have := (List.dropWhile_sublist (l := cs) (fun x => decide (x = '\n'))).length_le
      simp only [List.length_cons]
      omega
    · simp

/-- `re.sub(r"\n{3,}", "\n\n", text)` of `rag_index.py` line 41: every
maximal run of `r ≥ 1` newlines becomes `min r 2` newlines. -/
def collapseNewlines3 : List Char → List Char
  | [] => []
  | c :: cs =>
    if c = '\n' then
      List.replicate (min (1 + (cs.takeWhile (· = '\n')).length) 2) '\n' ++
        collapseNewlines3 (cs.dropWhile (· = '\n'))
    else c :: collapseNewlines3 cs
  termination_by l => l.length
  decreasing_by
    · have := (List.dropWhile_sublist (l := cs) (fun x => decide (x = '\n'))).length_le
      simp only [List.length_cons]
      omega
    · simp

/-- `"\n".join(lines)`. -/
def joinNL : List (List Char) → List Char
  | [] => []
  | [l] => l
  | l :: ls => l ++ '\n' :: joinNL ls

/-- Lines 40-43 of `rag_index.py` after the external BeautifulSoup extraction
(`soup.get_text("\n", strip=True)` is the collaborator producing `text`):
collapse newline runs of three or more to two, then strip every line and keep
only the non-blank ones, joined by single newlines. -/
def postprocess_rag (text : List Char) : List Char :=
  joinNL (((pySplitlines (collapseNewlines3 text)).map pyStrip).filter
    (fun l => l ≠ []))

/-- Lines 21-23 of `html_to_text.py` after the external BeautifulSoup
extraction: only the newline-collapsing pass, with no blank-line filtering. -/
def postprocess_h2t (text : List Char) : List Char :=
  collapseNewlines text

/-- No two consecutive newline characters. -/
def noDoubleNL (l : List Char) : Prop :=
  List.Chain' (fun a b => ¬(a = '\n' ∧ b = '\n')) l

/-- The head surviving a `dropWhile` fails the predicate. -/
theorem head_dropWhile (p : Char → Bool) :
    ∀ l : List Char, ∀ c, (l.dropWhile p).head? = some c → p c = false := by
  intro l
  induction l with
  | nil => intro c h; simp at h
  | cons a as ih =>
    intro c h
    rw [List.dropWhile_cons] at h
    by_cases hp : p a
    · rw [if_pos hp] at h
      exact ih c h
    · rw [if_neg hp] at h
      simp only [List.head?_cons, Option.some.injEq] at h
      subst h
      exact Bool.eq_false_iff.mpr hp

/-- `collapseNewlines` never starts with a newline unless its input does. -/
theorem collapseNewlines_head_ne (l : List Char)
    (hl : ∀ c, l.head? = some c → c ≠ '\n') :
    ∀ c, (collapseNewlines l).head? = some c → c ≠ '\n' := by
  cases l with
  | nil => intro c h; simp [collapseNewlines] at h
  | cons a as =>
    intro c h
    have ha : a ≠ '\n' := hl a rfl
    rw [collapseNewlines, if_neg ha] at h
    simp only [List.head?_cons, Option.some.injEq] at h
    subst h
    exact ha

/-- The output of `collapseNewlines` has no two consecutive newlines. -/
theorem collapseNewlines_noDouble (l : List Char) :
    noDoubleNL (collapseNewlines l) := by
  suffices H : ∀ n, ∀ l : List Char, l.length ≤ n → noDoubleNL (collapseNewlines l) from
    H l.length l le_rfl
  intro n
  induction n with
  | zero =>
    intro l hl
    have : l = [] := List.length_eq_zero.mp (Nat.le_zero.mp hl)
    subst this
    simp [collapseNewlines, noDoubleNL]
  | succ n ih =>
    intro l hl
    cases l with
    | nil => simp [collapseNewlines, noDoubleNL]
    | cons a as =>
      by_cases ha : a = '\n'
      · subst ha
        rw [collapseNewlines, if_pos rfl, noDoubleNL, List.chain'_cons']
        constructor
        · intro b hb hcontra
          have hb' : (collapseNewlines (as.dropWhile (· = '\n'))).head? = some b := hb
          have : b ≠ '\n' := by
            refine collapseNewlines_head_ne _ ?_ b hb'
            intro c hc
            have := head_dropWhile _ as c hc
            simpa using this
          exact this hcontra.2
        · refine ih (as.dropWhile (· = '\n')) ?_
          have := (List.dropWhile_sublist (l := as) (fun x => decide (x = '\n'))).length_le
          simp only [List.length_cons] at hl
          omega
      · rw [collapseNewlines, if_neg ha, noDoubleNL, List.chain'_cons']
        constructor
        · intro b hb hcontra
          exact ha hcontra.1
        · refine ih as ?_
          simp only [List.length_cons] at hl
          omega

/-- Lines produced by the splitter contain no newline. -/
theorem pySplitlinesGo_no_nl :
    ∀ (l cur : List Char), '\n' ∉ cur →
      ∀ ln ∈ pySplitlinesGo l cur, '\n' ∉ ln := by
  intro l
  induction l with
  | nil =>
    intro cur hc ln hln
    rw [pySplitlinesGo] at hln
    by_cases h : cur = []
    · rw [if_pos h] at hln
      simp at hln
    · rw [if_neg h] at hln
      simp only [List.mem_singleton] at hln
      subst hln
      simpa using hc
  | cons a as ih =>
    intro cur hc ln hln
    rw [pySplitlinesGo] at hln
    by_cases ha : a = '\n'
    · rw [if_pos ha] at hln
      rcases List.mem_cons.mp hln with h | h
      · subst h
        simpa using hc
      · exact ih [] (by simp) ln h
    · rw [if_neg ha] at hln
      refine ih (a :: cur) ?_ ln hln
      intro hx
      rcases List.mem_cons.mp hx with h | h
      · exact ha h.symm
      · exact hc h

/-- Every character of a stripped line occurs in the original line. -/
theorem pyStrip_subset (l : List Char) : ∀ c ∈ pyStrip l, c ∈ l := by
  intro c hc
  simp only [pyStrip] at hc
  rw [List.mem_reverse] at hc
  have h1 := (List.dropWhile_sublist (l := (l.dropWhile isPySpace).reverse) isPySpace).subset hc
  rw [List.mem_reverse] at h1
  exact (List.dropWhile_sublist (l := l) isPySpace).subset h1

/-- Splitting a newline-free line followed by a newline peels off one line. -/
theorem pySplitlinesGo_append (rest : List Char) :
    ∀ (l cur : List Char), '\n' ∉ l →
      pySplitlinesGo (l ++ '\n' :: rest) cur =
        (cur.reverse ++ l) :: pySplitlinesGo rest [] := by
  intro l
  induction l with
  | nil =>
    intro cur h
    rw [List.nil_append, pySplitlinesGo, if_pos rfl]
    simp
  | cons a as ih =>
    intro cur h
    have ha : a ≠ '\n' := fun hh => h (hh ▸ List.mem_cons_self a as)
    rw [List.cons_append, pySplitlinesGo, if_neg ha,
      ih (a :: cur) (fun hh => h (List.mem_cons_of_mem a hh))]
    simp

/-- Splitting a newline-free text yields it back as the only line (or nothing
when it is empty). -/
theorem pySplitlinesGo_no_nl_eq :
    ∀ (l cur : List Char), '\n' ∉ l →
      pySplitlinesGo l cur =
        if cur.reverse ++ l = [] then [] else [cur.reverse ++ l] := by
  intro l
  induction l with
  | nil =>
    intro cur h
    rw [pySplitlinesGo]
    by_cases hcur : cur = []
    · subst hcur
      simp
    · rw [if_neg hcur, List.append_nil, if_neg (by simpa using hcur)]
  | cons a as ih =>
    intro cur h
    have ha : a ≠ '\n' := fun hh => h (hh ▸ List.mem_cons_self a as)
    rw [pySplitlinesGo, if_neg ha, ih (a :: cur) (fun hh => h (List.mem_cons_of_mem a hh))]
    have h1 : (a :: cur).reverse ++ as = cur.reverse ++ a :: as := by simp
    rw [h1]

/-- Round trip: joining non-empty newline-free lines with `"\n"` and
re-splitting gives the lines back. -/
theorem pySplitlines_joinNL :
    ∀ lines : List (List Char), (∀ ln ∈ lines, ln ≠ [] ∧ '\n' ∉ ln) →
      pySplitlines (joinNL lines) = lines := by
  intro lines
  induction lines with
  | nil => intro h; rfl
  | cons l ls ih =>
    intro h
    have hl := h l (List.mem_cons_self l ls)
    cases ls with
    | nil =>
      show pySplitlinesGo l [] = [l]
      rw [pySplitlinesGo_no_nl_eq l [] hl.2]
      simp [hl.1]
    | cons m ms =>
      show pySplitlinesGo (l ++ '\n' :: joinNL (m :: ms)) [] = l :: m :: ms
      rw [pySplitlinesGo_append _ l [] hl.2]
      simp only [List.reverse_nil, List.nil_append]
      congr 1
      exact ih (fun ln hln => h ln (List.mem_cons_of_mem _ hln))

/-- A newline-free list trivially has no two consecutive newlines. -/
theorem noDoubleNL_of_no_nl (l : List Char) (h : '\n' ∉ l) : noDoubleNL l := by
  induction l with
  | nil => simp [noDoubleNL]
  | cons a as ih =>
    rw [noDoubleNL, List.chain'_cons']
    refine ⟨?_, ih (fun hh => h (List.mem_cons_of_mem _ hh))⟩
    intro b hb hcontra
    exact h (hcontra.1 ▸ List.mem_cons_self a as)

/-- Head of a joined line list is the head of its first line. -/
theorem joinNL_head (m : List Char) (ms : List (List Char)) (hm : m ≠ []) :
    (joinNL (m :: ms)).head? = m.head? := by
  cases ms with
  | nil => rfl
  | cons m2 ms2 =>
    show (m ++ '\n' :: joinNL (m2 :: ms2)).head? = m.head?
    cases m with
    | nil => exact absurd rfl hm
    | cons a as => simp

/-- Joining non-empty newline-free lines yields no two consecutive
newlines. -/
theorem joinNL_noDouble :
    ∀ lines : List (List Char), (∀ ln ∈ lines, ln ≠ [] ∧ '\n' ∉ ln) →
      noDoubleNL (joinNL lines) := by
  intro lines
  induction lines with
  | nil => intro h; simp [joinNL, noDoubleNL]
  | cons l ls ih =>
    intro h
    have hl := h l (List.mem_cons_self l ls)
    cases ls with
    | nil => exact noDoubleNL_of_no_nl l hl.2
    | cons m ms =>
      show noDoubleNL (l ++ '\n' :: joinNL (m :: ms))
      have hm := h m (List.mem_cons_of_mem _ (List.mem_cons_self m ms))
      have hrest : noDoubleNL ('\n' :: joinNL (m :: ms)) := by
        rw [noDoubleNL, List.chain'_cons']
        constructor
        · intro b hb hcontra
          rw [joinNL_head m ms hm.1] at hb
          have : b ∈ m := List.mem_of_mem_head? hb
          exact hm.2 (hcontra.2 ▸ this)
        · exact ih (fun ln hln => h ln (List.mem_cons_of_mem _ hln))
      refine List.Chain'.append (noDoubleNL_of_no_nl l hl.2) hrest ?_
      intro x hx y hy hcontra
      have : x ∈ l := List.mem_of_mem_getLast? hx
      exact hl.2 (hcontra.1 ▸ this)

/-- A line strips to empty exactly when all its characters are whitespace. -/
theorem pyStrip_eq_nil_iff (l : List Char) :
    pyStrip l = [] ↔ ∀ c ∈ l, isPySpace c = true := by
  simp only [pyStrip]
  rw [List.reverse_eq_nil_iff, List.dropWhile_eq_nil_iff]
  constructor
  · intro h c hc
    by_cases hd : c ∈ l.dropWhile isPySpace
    · exact h c (List.mem_reverse.mpr hd)
    · have hsplit : l.takeWhile isPySpace ++ l.dropWhile isPySpace = l :=
        List.takeWhile_append_dropWhile isPySpace l
      have : c ∈ l.takeWhile isPySpace := by
        rcases List.mem_append.mp (hsplit ▸ hc) with h1 | h1
        · exact h1
        · exact absurd h1 hd
      exact List.mem_takeWhile_imp this
  · intro h c hc
    exact h c ((List.dropWhile_sublist (l := l) isPySpace).subset (List.mem_reverse.mp hc))

/-- A non-whitespace terminal character survives `dropWhile`. -/
theorem mem_dropWhile_concat (p : Char → Bool) (c : Char) (hc : p c = false) :
    ∀ zs : List Char, c ∈ (zs ++ [c]).dropWhile p := by
  intro zs
  induction zs with
  | nil => simp [List.dropWhile, hc]
  | cons z zs ih =>
    rw [List.cons_append, List.dropWhile_cons]
    by_cases hz : p z
    · rw [if_pos hz]
      exact ih
    · rw [if_neg hz]
      exact List.mem_cons_of_mem z (List.mem_append_right zs (List.mem_singleton.mpr rfl))

/-- A line whose strip is non-empty contains a non-whitespace character that
survives stripping. -/
theorem pyStrip_has_nonspace (x : List Char) (h : pyStrip x ≠ []) :
    ∃ c ∈ pyStrip x, isPySpace c = false := by
  have hyne : x.dropWhile isPySpace ≠ [] := by
    intro hnil
    apply h
    simp [pyStrip, hnil]
  obtain ⟨c, ys, hcys⟩ := List.exists_cons_of_ne_nil hyne
  have hc : isPySpace c = false := by
    apply head_dropWhile isPySpace x
    rw [hcys]
    rfl
  refine ⟨c, ?_, hc⟩
  simp only [pyStrip, hcys]
  rw [List.mem_reverse]
  have hrev : (c :: ys).reverse = ys.reverse ++ [c] := by simp
  rw [hrev]
  exact mem_dropWhile_concat _ c hc ys.reverse

/-- C8 amended: the `rag_index.py` normalizer produces text with no run of two
or more newlines and no line that is empty after trimming; the
`html_to_text.py` normalizer guarantees only the first half (no double
newlines) — it can emit whitespace-only lines. -/
theorem html_normalize_blank_lines :
    (∀ text : List Char, noDoubleNL (postprocess_rag text) ∧
        ∀ ln ∈ pySplitlines (postprocess_rag text), pyStrip ln ≠ []) ∧
    (∀ text : List Char, noDoubleNL (postprocess_h2t text)) := by
  constructor
  · intro text
    have hprops : ∀ ln ∈ ((pySplitlines (collapseNewlines3 text)).map pyStrip).filter
        (fun l => l ≠ []), ln ≠ [] ∧ '\n' ∉ ln := by
      intro ln hln
      rw [List.mem_filter] at hln
      obtain ⟨hmem, hne⟩ := hln
      rw [List.mem_map] at hmem
      obtain ⟨orig, horig, hstrip⟩ := hmem
      refine ⟨by simpa using hne, ?_⟩
      intro hnl
      have hin : '\n' ∈ orig := pyStrip_subset orig '\n' (hstrip ▸ hnl)
      exact pySplitlinesGo_no_nl (collapseNewlines3 text) [] (by simp) orig horig hin
    constructor
    · exact joinNL_noDouble _ hprops
    · intro ln hln
      rw [show postprocess_rag text =
          joinNL (((pySplitlines (collapseNewlines3 text)).map pyStrip).filter
            (fun l => l ≠ [])) from rfl,
        pySplitlines_joinNL _ hprops] at hln
      rw [List.mem_filter] at hln
      obtain ⟨hmem, hne⟩ := hln
      rw [List.mem_map] at hmem
      obtain ⟨orig, -, hstrip⟩ := hmem
      obtain ⟨c, hc, hcs⟩ := pyStrip_has_nonspace orig (by rw [hstrip]; simpa using hne)
      rw [hstrip] at hc
      intro hnil
      rw [pyStrip_eq_nil_iff] at hnil
      rw [hnil c hc] at hcs
      exact Bool.noConfusion hcs
  · intro text
    exact collapseNewlines_noDouble text

/-- C8 counterexample for the `html_to_text.py` variant: the text
`"a\n \nb"` (reachable from the markup `<p>a\n \nb</p>`, whose single text
node is stripped only at its ends by `get_text("\n", strip=True)`) passes
through `re.sub(r"\n{2,}", "\n", ...)` unchanged, and its middle line `" "`
is empty after trimming — the returned string does contain a line that is
blank after trimming. -/
theorem html_to_text_h2t_blank_line :
    pySplitlines (postprocess_h2t ['a', '\n', ' ', '\n', 'b']) =
        [['a'], [' '], ['b']] ∧
      pyStrip [' '] = [] := by
  constructor
  · simp [postprocess_h2t, collapseNewlines, pySplitlines, pySplitlinesGo]
  · rfl

/-- Chunk metadata, `{"source": f.name, "chunk_id": i}`. -/
structure Meta where
  source : String
  chunk_id : ℕ
deriving DecidableEq

instance : Inhabited Meta := ⟨⟨"", 0⟩⟩

/-- The payload built by `build_index_from_dir` and written to the index
file: three parallel arrays. -/
structure BuildPayload where
  vectors : List (List ℝ)
  chunks : List (List Char)
  metas : List Meta

/-- Row normalisation `arr / (np.linalg.norm(arr, axis=1) + 1e-10)`.  The
square root makes this the one non-executable definition; the claims proved
about the build never evaluate the normalised entries, only count them. -/
noncomputable def l2normalize (v : List ℝ) : List ℝ :=
  v.map (fun x => x / (Real.sqrt (v.map (fun y => y * y)).sum + 1e-10))

/-- `chunk_text` at the build-time call site's default parameters
(`max_chars = 1100`, `overlap = 200`, which satisfy the termination
precondition, so the `getD` default is never taken). -/
def chunk_textD (t : List Char) : List (List Char) :=
  (chunk_text t 1100 200).getD []

/-- `build_index_from_dir` of `rag_index.py` lines 60-86 (same structure in
`embed_texts.py` lines 37-60), with the file system and the HTML parser as
collaborators: `docs` is the list of `(file name, normalised text)` pairs and
`embed` the external embedding capability.  Matching the source, files are
processed in sorted order; each document is chunked, every chunk appended to
the parallel `chunks`/`metas` lists with a per-document `chunk_id` starting at
0, the chunk list embedded in one batch and every vector L2-normalised.
Raises (returns `Except.error`) when the document set is empty. -/
noncomputable def build_index (docs : List (String × List Char))
    (embed : List (List Char) → List (List ℝ)) : Except String BuildPayload :=
  let files := List.insertionSort (fun a b => a.1 ≤ b.1) docs
  if files = [] then Except.error "No .html files found"
  else
    let pairs := files.flatMap (fun f =>
      (chunk_textD f.2).enum.map (fun ic => (ic.2, Meta.mk f.1 ic.1)))
    Except.ok
      { vectors := (embed (pairs.map (fun p => p.1))).map l2normalize
        chunks := pairs.map (fun p => p.1)
        metas := pairs.map (fun p => p.2) }

/-- C6: building from an empty document set fails with the index-build error
(`RuntimeError("No .html files found...")` in the source, `IndexBuildError`
in the spec's taxonomy) and produces no index. -/
theorem build_index_empty_fails (embed : List (List Char) → List (List ℝ)) :
    build_index [] embed = Except.error "No .html files found" := by
  rfl

/-- Every `(chunk text, metadata)` pair assembled by the build loop comes
from some document in the processed list: its source name is that document's
name and its text is the `chunk_id`-th chunk of that document. -/
theorem pairs_mem_spec (files : List (String × List Char)) (p : List Char × Meta)
    (hp : p ∈ files.flatMap
      (fun f => (chunk_textD f.2).enum.map (fun ic => (ic.2, Meta.mk f.1 ic.1)))) :
    ∃ d ∈ files, p.2.source = d.1 ∧
      p.1 = (chunk_textD d.2).getD p.2.chunk_id [] := by
  rw [List.mem_flatMap] at hp
  obtain ⟨f, hf, hp2⟩ := hp
  rw [List.mem_map] at hp2
  obtain ⟨⟨j, ch⟩, hjc, rfl⟩ := hp2
  have hjm := List.mem_enum hjc
  refine ⟨f, hf, rfl, ?_⟩
  simp only
  rw [List.getD_eq_getElem _ _ hjm.1]
  exact hjm.2

/-- C7: for a non-empty document set and an embedding collaborator returning
one vector per input text in order, the three parallel collections of the
built index have identical length, the vectors are exactly the normalised
embeddings of the chunk texts (same position), and entry `i` of the chunk and
metadata collections describe the same chunk: the metadata names a source
document whose chunk list at position `chunk_id` is exactly that chunk
text. -/
theorem build_index_parallel (docs : List (String × List Char))
    (embed : List (List Char) → List (List ℝ))
    (hdocs : docs ≠ [])
    (hembed : ∀ ts, (embed ts).length = ts.length)
    (payload : BuildPayload)
    (hbuild : build_index docs embed = Except.ok payload) :
    payload.vectors.length = payload.chunks.length ∧
    payload.chunks.length = payload.metas.length ∧
    payload.vectors = (embed payload.chunks).map l2normalize ∧
    ∀ i, i < payload.chunks.length →
      ∃ d ∈ docs, (payload.metas.getD i default).source = d.1 ∧
        payload.chunks.getD i [] =
          (chunk_textD d.2).getD (payload.metas.getD i default).chunk_id [] := by
  have hperm := List.perm_insertionSort
    (fun a b : String × List Char => a.1 ≤ b.1) docs
  have hfiles : List.insertionSort (fun a b : String × List Char => a.1 ≤ b.1) docs ≠ [] := by
    intro h
    exact hdocs (h ▸ hperm).symm.eq_nil
  rw [build_index, if_neg hfiles] at hbuild
  have hpay := Except.ok.inj hbuild
  subst hpay
  refine ⟨by simp [hembed], by simp, rfl, ?_⟩
  intro i hi
  simp only [List.length_map] at hi
  have e1 : ∀ (pairs : List (List Char × Meta)) (hi : i < pairs.length),
      (pairs.map (fun p => p.1)).getD i [] = (pairs.get ⟨i, hi⟩).1 := by
    intro pairs hip
    rw [List.getD_eq_getElem _ _ (by simpa using hip), List.getElem_map]
    rfl
  have e2 : ∀ (pairs : List (List Char × Meta)) (hi : i < pairs.length),
      (pairs.map (fun p => p.2)).getD i default = (pairs.get ⟨i, hi⟩).2 := by
    intro pairs hip
    rw [List.getD_eq_getElem _ _ (by simpa using hip), List.getElem_map]
    rfl
  obtain ⟨d, hd, hsrc, hch⟩ := pairs_mem_spec _ _ (List.get_mem _ i hi)
  exact ⟨d, hperm.mem_iff.mp hd, by rw [e2 _ hi]; exact hsrc,
    by rw [e1 _ hi, e2 _ hi]; exact hch⟩

/-- Witness for `build_index_parallel` at a single one-chunk document and a
constant embedding collaborator. -/
theorem build_index_parallel_witness :
    (([("a.html", ['h', 'i'])] : List (String × List Char)) ≠ []) ∧
    (∀ ts : List (List Char), (ts.map (fun _ => [(1 : ℝ)])).length = ts.length) ∧
    (build_index [("a.html", ['h', 'i'])]
        (fun ts : List (List Char) => ts.map (fun _ => [(1 : ℝ)])) =
      Except.ok ⟨[l2normalize [(1 : ℝ)]], [['h', 'i']], [Meta.mk "a.html" 0]⟩) ∧
    ([l2normalize [(1 : ℝ)]].length = 1) := by
  have hb : build_index [("a.html", ['h', 'i'])]
      (fun ts : List (List Char) => ts.map (fun _ => [(1 : ℝ)])) =
      Except.ok ⟨[l2normalize [(1 : ℝ)]], [['h', 'i']], [Meta.mk "a.html" 0]⟩ := rfl
  have h := build_index_parallel [("a.html", ['h', 'i'])]
    (fun ts : List (List Char) => ts.map (fun _ => [(1 : ℝ)]))
    (by simp) (fun ts => by simp) _ hb
  exact ⟨by simp, fun ts => by simp, hb, h.1⟩

mutual

/-- JSON values as produced by `json.loads` (numbers restricted to the
integers the validated forms traffic in).  Arrays and objects are separate
inductives so that every function below is structurally recursive and
evaluates inside the kernel. -/
inductive Json where
  | null
  | bool (b : Bool)
  | num (n : Int)
  | str (s : String)
  | arr (l : JsonArr)
  | obj (l : JsonObj)

/-- A JSON array: a list of JSON values. -/
inductive JsonArr where
  | nil
  | cons (hd : Json) (tl : JsonArr)

/-- A JSON object: an ordered list of key/value entries (Python dict keys are
unique; lookups below take the first match). -/
inductive JsonObj where
  | nil
  | cons (k : String) (v : Json) (tl : JsonObj)

end

/-- Build a JSON object from a list of entries. -/
def JsonObj.ofList : List (String × Json) → JsonObj
  | [] => .nil
  | (k, v) :: rest => .cons k v (JsonObj.ofList rest)

/-- Object-literal helper. -/
def jObj (l : List (String × Json)) : Json := .obj (JsonObj.ofList l)

/-- Emptiness of an object. -/
def JsonObj.isEmpty : JsonObj → Bool
  | .nil => true
  | .cons _ _ _ => false

/-- Emptiness of an array. -/
def JsonArr.isEmpty : JsonArr → Bool
  | .nil => true
  | .cons _ _ => false

/-- `d.get(k)`: the value stored under `k`, if any. -/
def JsonObj.lookup (k : String) : JsonObj → Option Json
  | .nil => none
  | .cons k' v tl => if k' = k then some v else JsonObj.lookup k tl

/-- Python truthiness of a JSON value (`bool(v)`). -/
def pyTruthy : Json → Bool
  | .null => false
  | .bool b => b
  | .num n => n != 0
  | .str s => s != ""
  | .arr l => !l.isEmpty
  | .obj l => !l.isEmpty

mutual

/-- Python `repr` of a JSON value (string escaping inside containers is not
modelled; no claim feeds quoted text through it). -/
def pyRepr : Json → String
  | .null => "None"
  | .bool b => if b then "True" else "False"
  | .num n => toString n
  | .str s => "'" ++ s ++ "'"
  | .arr l => "[" ++ pyReprArr l ++ "]"
  | .obj l => "\x7b" ++ pyReprObj l ++ "\x7d"

/-- `repr` of the elements of an array, comma separated. -/
def pyReprArr : JsonArr → String
  | .nil => ""
  | .cons x .nil => pyRepr x
  | .cons x xs => pyRepr x ++ ", " ++ pyReprArr xs

/-- `repr` of the entries of an object, comma separated. -/
def pyReprObj : JsonObj → String
  | .nil => ""
  | .cons k v .nil => "'" ++ k ++ "': " ++ pyRepr v
  | .cons k v xs => "'" ++ k ++ "': " ++ pyRepr v ++ ", " ++ pyReprObj xs

end

/-- Python `str` of a JSON value: identity on strings, `repr` otherwise. -/
def pyStr : Json → String
  | .str s => s
  | v => pyRepr v

/-- Comma-separated join. -/
def joinComma : List String → String
  | [] => ""
  | [s] => s
  | s :: rest => s ++ ", " ++ joinComma rest

/-- `f"...{xs}"` rendering of a list of path strings. -/
def pyReprStrList (l : List String) : String :=
  "[" ++ joinComma (l.map (fun s => "'" ++ s ++ "'")) ++ "]"

/-- `str.isdigit()` (restricted to ASCII digits; the Unicode digits Python
also accepts play no role in the validated forms). -/
def pyIsDigit (s : String) : Bool :=
  !s.data.isEmpty && s.data.all Char.isDigit

/-- Code-point lexicographic order on character sequences — Python's `<=` on
strings, used by `sorted`. -/
def lexLe : List Char → List Char → Bool
  | [], _ => true
  | _ :: _, [] => false
  | a :: as, b :: bs => if a < b then true else if b < a then false else lexLe as bs

/-- Python's `<=` on strings. -/
def strLe (a b : String) : Bool := lexLe a.data b.data

mutual

/-- `deep_keys` of `app_streamlit.py` lines 132-140, value side: recurse into
dict values, emit the dot-joined path at a non-dict leaf. -/
def deepKeysVal (path : String) : Json → List String
  | .obj kvs => deepKeysEntries path kvs
  | _ => [path]

/-- `deep_keys`, entry-list side: each entry contributes the paths of its
value under the extended path prefix. -/
def deepKeysEntries (pre : String) : JsonObj → List String
  | .nil => []
  | .cons k v tl =>
    deepKeysVal (if pre = "" then k else pre ++ "." ++ k) v ++ deepKeysEntries pre tl

end

/-- Key-paths of a payload: `set(deep_keys(payload)) if isinstance(payload,
dict) else set()` (as the list before set conversion). -/
def deep_keys : Json → List String
  | .obj kvs => deepKeysEntries "" kvs
  | _ => []

/-- The `REQUIRED_SCHEMA` template of `app_streamlit.py` lines 97-129. -/
def REQUIRED_SCHEMA : Json :=
  jObj
    [("lastName", .str ""), ("firstName", .str ""), ("idNumber", .str ""),
     ("gender", .str ""),
     ("dateOfBirth", jObj [("day", .str ""), ("month", .str ""), ("year", .str "")]),
     ("address", jObj
       [("street", .str ""), ("houseNumber", .str ""), ("entrance", .str ""),
        ("apartment", .str ""), ("city", .str ""), ("postalCode", .str ""),
        ("poBox", .str "")]),
     ("landlinePhone", .str ""), ("mobilePhone", .str ""), ("jobType", .str ""),
     ("dateOfInjury", jObj [("day", .str ""), ("month", .str ""), ("year", .str "")]),
     ("timeOfInjury", .str ""), ("accidentLocation", .str ""),
     ("accidentAddress", .str ""), ("accidentDescription", .str ""),
     ("injuredBodyPart", .str ""), ("signature", .str ""),
     ("formFillingDate", jObj [("day", .str ""), ("month", .str ""), ("year", .str "")]),
     ("formReceiptDateAtClinic", jObj [("day", .str ""), ("month", .str ""), ("year", .str "")]),
     ("medicalInstitutionFields", jObj
       [("healthFundMember", .str ""), ("natureOfAccident", .str ""),
        ("medicalDiagnoses", .str "")])]

/-- The template's key-paths. -/
def required_paths : List String := deep_keys REQUIRED_SCHEMA

/-- `str(node.get(k, "") or "")`: empty for an absent or falsy value,
otherwise the string coercion of the value. -/
def pyGetStr (kvs : JsonObj) (k : String) : String :=
  match kvs.lookup k with
  | none => ""
  | some v => if pyTruthy v then pyStr v else ""

/-- The idNumber issue text. -/
def idMsg : String := "idNumber must be exactly 9 digits (or empty)."

/-- The day issue text for a date group. -/
def dayMsg (label : String) : String := label ++ ".day must be 2 digits (or empty)."

/-- The month issue text for a date group. -/
def monthMsg (label : String) : String := label ++ ".month must be 2 digits (or empty)."

/-- The year issue text for a date group. -/
def yearMsg (label : String) : String := label ++ ".year must be 4 digits (or empty)."

/-- `check_date` of `validate_schema` (`app_streamlit.py` lines 160-170):
once any of day/month/year is non-empty, each of the three is required to be
well-formed — including the empty ones. -/
def check_date (label : String) (node : JsonObj) : List String :=
  let d := pyGetStr node "day"
  let m := pyGetStr node "month"
  let y := pyGetStr node "year"
  if d ≠ "" ∨ m ≠ "" ∨ y ≠ "" then
    (if ¬(d.length = 2 ∧ pyIsDigit d = true) then [dayMsg label] else []) ++
    (if ¬(m.length = 2 ∧ pyIsDigit m = true) then [monthMsg label] else []) ++
    (if ¬(y.length = 4 ∧ pyIsDigit y = true) then [yearMsg label] else [])
  else []

/-- The four date groups checked by `validate_schema`. -/
def dateKeys : List String :=
  ["dateOfBirth", "dateOfInjury", "formFillingDate", "formReceiptDateAtClinic"]

/-- `payload.get(date_key, {}) if isinstance(payload.get(date_key), dict)
else {}`. -/
def dateNode (kvs : JsonObj) (k : String) : JsonObj :=
  match kvs.lookup k with
  | some (.obj l) => l
  | _ => .nil

/-- The "missing paths" issue (template paths absent from the payload),
rendered only when non-empty, sorted for determinism. -/
def missing_issue (payload : Json) : List String :=
  let missing := List.insertionSort (fun a b : String => strLe a b = true)
    ((required_paths.filter (fun s => ¬ s ∈ deep_keys payload)).dedup)
  if missing ≠ [] then ["Missing keys/paths: " ++ pyReprStrList missing] else []

/-- The "unexpected extra paths" issue (payload paths absent from the
template). -/
def extra_issue (payload : Json) : List String :=
  let extras := List.insertionSort (fun a b : String => strLe a b = true)
    (((deep_keys payload).filter (fun s => ¬ s ∈ required_paths)).dedup)
  if extras ≠ [] then ["Unexpected extra keys/paths: " ++ pyReprStrList extras] else []

/-- The idNumber format issue (`app_streamlit.py` lines 156-158). -/
def id_issue (kvs : JsonObj) : List String :=
  let idn := pyGetStr kvs "idNumber"
  if idn ≠ "" ∧ (pyIsDigit idn = false ∨ idn.length ≠ 9) then [idMsg] else []

/-- The four date-group format issues in order. -/
def date_issues (kvs : JsonObj) : List String :=
  dateKeys.flatMap (fun k => check_date k (dateNode kvs k))

/-- The format checks, applied only when the payload is a dict. -/
def format_issues : Json → List String
  | .obj kvs => id_issue kvs ++ date_issues kvs
  | _ => []

/-- `validate_schema` of `app_streamlit.py` lines 143-176: shape issues
(missing, then extras), then the format checks. -/
def validate_schema (payload : Json) : List String :=
  missing_issue payload ++ extra_issue payload ++ format_issues payload

/-- A conditional singleton is empty exactly when its condition fails. -/
theorem ite_singleton_eq_nil (c : Prop) [Decidable c] (x : String) :
    (if c then [x] else []) = [] ↔ ¬ c := by
  split
  case isTrue h => simp [h]
  case isFalse h => simp [h]

/-- An insertion sort is empty exactly when its input is. -/
theorem insertionSort_eq_nil_iff (r : String → String → Prop) [DecidableRel r]
    (l : List String) :
    List.insertionSort r l = [] ↔ l = [] := by
  constructor
  · intro h
    have hp := List.perm_insertionSort r l
    rw [h] at hp
    exact hp.symm.eq_nil
  · intro h
    subst h
    rfl

/-- Two strings with different first characters differ, whatever follows the
first. -/
theorem append_head_ne (pre s t : String) (c c' : Char) (hc : pre.data.head? = some c)
    (hc' : t.data.head? = some c') (hcc : c ≠ c') : pre ++ s ≠ t := by
  intro he
  rw [← he, String.data_append] at hc'
  cases hd : pre.data with
  | nil =>
    rw [hd] at hc
    exact Option.noConfusion hc
  | cons a as =>
    rw [hd] at hc hc'
    simp only [List.cons_append, List.head?_cons, Option.some.injEq] at hc hc'
    exact hcc (by rw [← hc, ← hc'])

/-- Two messages over the same label differ when their suffixes do. -/
theorem label_msg_ne (label a b : String) (h : a ≠ b) : label ++ a ≠ label ++ b := by
  intro he
  apply h
  apply String.ext
  have hd : (label ++ a).data = (label ++ b).data := by rw [he]
  rw [String.data_append, String.data_append] at hd
  exact List.append_cancel_left hd

/-- Anything in the missing-paths issue list is the missing-paths message. -/
theorem mem_missing_issue (p : Json) (x : String) (hx : x ∈ missing_issue p) :
    ∃ s, x = "Missing keys/paths: " ++ s := by
  simp only [missing_issue] at hx
  split at hx
  · simp only [List.mem_singleton] at hx
    exact ⟨_, hx⟩
  · simp at hx

/-- Anything in the extra-paths issue list is the extra-paths message. -/
theorem mem_extra_issue (p : Json) (x : String) (hx : x ∈ extra_issue p) :
    ∃ s, x = "Unexpected extra keys/paths: " ++ s := by
  simp only [extra_issue] at hx
  split at hx
  · simp only [List.mem_singleton] at hx
    exact ⟨_, hx⟩
  · simp at hx

/-- Anything in the idNumber issue list is the idNumber message. -/
theorem mem_id_issue (kvs : JsonObj) (x : String) (hx : x ∈ id_issue kvs) :
    x = idMsg := by
  simp only [id_issue] at hx
  split at hx
  · simpa using hx
  · simp at hx

/-- Membership in a conditional singleton forces equality. -/
theorem mem_ite_singleton (c : Prop) [Decidable c] (x y : String)
    (h : x ∈ if c then [y] else []) : x = y := by
  split at h
  · simpa using h
  · simp at h

/-- Anything `check_date` emits is one of its three messages. -/
theorem mem_check_date (label : String) (node : JsonObj) (x : String)
    (hx : x ∈ check_date label node) :
    x = dayMsg label ∨ x = monthMsg label ∨ x = yearMsg label := by
  simp only [check_date] at hx
  split at hx
  · rcases List.mem_append.mp hx with h | h
    · rcases List.mem_append.mp h with h1 | h1
      · exact Or.inl (mem_ite_singleton _ _ _ h1)
      · exact Or.inr (Or.inl (mem_ite_singleton _ _ _ h1))
    · exact Or.inr (Or.inr (mem_ite_singleton _ _ _ h))
  · simp at hx

/-- The idNumber format check as a predicate: empty or exactly nine
digits. -/
def idFormatOk (kvs : JsonObj) : Prop :=
  pyGetStr kvs "idNumber" = "" ∨
    (pyIsDigit (pyGetStr kvs "idNumber") = true ∧ (pyGetStr kvs "idNumber").length = 9)

/-- The date-group format check as a predicate: all three sub-fields empty,
or all three well-formed (this is what the code enforces — see the C2
analysis). -/
def dateFormatOk (node : JsonObj) : Prop :=
  (pyGetStr node "day" = "" ∧ pyGetStr node "month" = "" ∧ pyGetStr node "year" = "") ∨
  ((pyGetStr node "day").length = 2 ∧ pyIsDigit (pyGetStr node "day") = true ∧
   (pyGetStr node "month").length = 2 ∧ pyIsDigit (pyGetStr node "month") = true ∧
   (pyGetStr node "year").length = 4 ∧ pyIsDigit (pyGetStr node "year") = true)

/-- All field-format checks pass. -/
def formatOk : Json → Prop
  | .obj kvs => idFormatOk kvs ∧ ∀ k ∈ dateKeys, dateFormatOk (dateNode kvs k)
  | _ => True

/-- The missing-paths issue is absent exactly when every template path occurs
in the payload. -/
theorem missing_issue_eq_nil (p : Json) :
    missing_issue p = [] ↔ ∀ s ∈ required_paths, s ∈ deep_keys p := by
  simp only [missing_issue]
  rw [ite_singleton_eq_nil, not_not, insertionSort_eq_nil_iff, List.dedup_eq_nil,
    List.filter_eq_nil_iff]
  simp

/-- The extra-paths issue is absent exactly when every payload path occurs in
the template. -/
theorem extra_issue_eq_nil (p : Json) :
    extra_issue p = [] ↔ ∀ s ∈ deep_keys p, s ∈ required_paths := by
  simp only [extra_issue]
  rw [ite_singleton_eq_nil, not_not, insertionSort_eq_nil_iff, List.dedup_eq_nil,
    List.filter_eq_nil_iff]
  simp

/-- The idNumber issue is absent exactly when the idNumber check passes. -/
theorem id_issue_eq_nil (kvs : JsonObj) : id_issue kvs = [] ↔ idFormatOk kvs := by
  simp only [id_issue, idFormatOk]
  rw [ite_singleton_eq_nil]
  constructor
  · intro h
    by_cases he : pyGetStr kvs "idNumber" = ""
    · exact Or.inl he
    · right
      have h2 := fun hrest => h ⟨he, hrest⟩
      constructor
      · by_cases hd : pyIsDigit (pyGetStr kvs "idNumber") = true
        · exact hd
        · exact absurd (Or.inl (Bool.not_eq_true _ ▸ hd)) h2
      · by_cases hl : (pyGetStr kvs "idNumber").length = 9
        · exact hl
        · exact absurd (Or.inr hl) h2
  · rintro (he | ⟨hd, hl⟩) hcon
    · exact hcon.1 he
    · rcases hcon.2 with h | h
      · rw [hd] at h
        exact Bool.noConfusion h
      · exact h hl

/-- `check_date` emits nothing exactly when the date-group check passes. -/
theorem check_date_eq_nil (label : String) (node : JsonObj) :
    check_date label node = [] ↔ dateFormatOk node := by
  simp only [check_date, dateFormatOk]
  split
  case isTrue h =>
    rw [List.append_eq_nil, List.append_eq_nil, ite_singleton_eq_nil,
      ite_singleton_eq_nil, ite_singleton_eq_nil]
    constructor
    · rintro ⟨⟨h1, h2⟩, h3⟩
      rw [not_not] at h1 h2 h3
      exact Or.inr ⟨h1.1, h1.2, h2.1, h2.2, h3.1, h3.2⟩
    · rintro (⟨e1, e2, e3⟩ | ⟨l1, d1, l2, d2, l3, d3⟩)
      · rcases h with h | h | h <;> contradiction
      · exact ⟨⟨not_not.mpr ⟨l1, d1⟩, not_not.mpr ⟨l2, d2⟩⟩, not_not.mpr ⟨l3, d3⟩⟩
  case isFalse h =>
    push_neg at h
    constructor
    · intro
      exact Or.inl ⟨h.1, h.2.1, h.2.2⟩
    · intro
      rfl

/-- The date issues are absent exactly when all four date groups pass. -/
theorem date_issues_eq_nil (kvs : JsonObj) :
    date_issues kvs = [] ↔ ∀ k ∈ dateKeys, dateFormatOk (dateNode kvs k) := by
  simp [date_issues, dateKeys, List.append_eq_nil, check_date_eq_nil, and_assoc]

/-- C5: `validate_schema` reports no issues exactly when the payload's set of
dot-joined key-paths equals the template's set of key-paths and all the
field-format checks (idNumber and the four date groups, as the code applies
them) pass. -/
theorem validate_schema_empty_iff (payload : Json) :
    validate_schema payload = [] ↔
      (∀ s, s ∈ deep_keys payload ↔ s ∈ required_paths) ∧ formatOk payload := by
  simp only [validate_schema, List.append_eq_nil, missing_issue_eq_nil, extra_issue_eq_nil]
  cases payload with
  | obj kvs =>
    simp only [format_issues, List.append_eq_nil, id_issue_eq_nil, date_issues_eq_nil,
      formatOk]
    constructor
    · rintro ⟨⟨hmiss, hext⟩, hid, hdate⟩
      exact ⟨fun s => ⟨fun hs => hext s hs, fun hs => hmiss s hs⟩, hid, hdate⟩
    · rintro ⟨hiff, hid, hdate⟩
      exact ⟨⟨fun s hs => (hiff s).mpr hs, fun s hs => (hiff s).mp hs⟩, hid, hdate⟩
  | null =>
    constructor
    · rintro ⟨⟨hmiss, -⟩, -⟩
      exact absurd (hmiss "lastName" (by decide)) (by simp [deep_keys])
    · rintro ⟨hiff, -⟩
      exact absurd ((hiff "lastName").mpr (by decide)) (by simp [deep_keys])
  | bool b =>
    constructor
    · rintro ⟨⟨hmiss, -⟩, -⟩
      exact absurd (hmiss "lastName" (by decide)) (by simp [deep_keys])
    · rintro ⟨hiff, -⟩
      exact absurd ((hiff "lastName").mpr (by decide)) (by simp [deep_keys])
  | num n =>
    constructor
    · rintro ⟨⟨hmiss, -⟩, -⟩
      exact absurd (hmiss "lastName" (by decide)) (by simp [deep_keys])
    · rintro ⟨hiff, -⟩
      exact absurd ((hiff "lastName").mpr (by decide)) (by simp [deep_keys])
  | str s =>
    constructor
    · rintro ⟨⟨hmiss, -⟩, -⟩
      exact absurd (hmiss "lastName" (by decide)) (by simp [deep_keys])
    · rintro ⟨hiff, -⟩
      exact absurd ((hiff "lastName").mpr (by decide)) (by simp [deep_keys])
  | arr l =>
    constructor
    · rintro ⟨⟨hmiss, -⟩, -⟩
      exact absurd (hmiss "lastName" (by decide)) (by simp [deep_keys])
    · rintro ⟨hiff, -⟩
      exact absurd ((hiff "lastName").mpr (by decide)) (by simp [deep_keys])

/-- C10: the idNumber check coerces the value with `str(... or "")`, so the
integer `123456789` passes (coerced to the nine-digit string), and `None`,
`0` and `""` are falsy, treated as absent, and pass as well: none of these
payloads receives the idNumber issue. -/
theorem idNumber_coerced (kvs : JsonObj) (v : Json)
    (hv : kvs.lookup "idNumber" = some v)
    (hcase : v = .num 123456789 ∨ v = .null ∨ v = .num 0 ∨ v = .str "") :
    idMsg ∉ validate_schema (.obj kvs) := by
  intro hmem
  simp only [validate_schema, List.mem_append] at hmem
  rcases hmem with (h | h) | h
  · obtain ⟨s, hs⟩ := mem_missing_issue _ _ h
    exact append_head_ne "Missing keys/paths: " s idMsg 'M' 'i' rfl rfl
      (by decide) hs.symm
  · obtain ⟨s, hs⟩ := mem_extra_issue _ _ h
    exact append_head_ne "Unexpected extra keys/paths: " s idMsg 'U' 'i' rfl rfl
      (by decide) hs.symm
  · simp only [format_issues, List.mem_append] at h
    rcases h with h | h
    · have hnil : id_issue kvs = [] := by
        simp only [id_issue, pyGetStr, hv]
        rcases hcase with rfl | rfl | rfl | rfl <;> decide
      rw [hnil] at h
      exact List.not_mem_nil _ h
    · simp only [date_issues, List.mem_flatMap] at h
      obtain ⟨k, hk, hmem2⟩ := h
      have hforms := mem_check_date k _ _ hmem2
      fin_cases hk <;>
        (rcases hforms with h | h | h <;> exact absurd h (by decide))

/-- Witness for `idNumber_coerced` at a payload whose idNumber is the integer
`123456789`. -/
theorem idNumber_coerced_witness :
    ((JsonObj.ofList [("idNumber", Json.num 123456789)]).lookup "idNumber" =
      some (Json.num 123456789)) ∧
    (Json.num 123456789 = Json.num 123456789 ∨ Json.num 123456789 = Json.null ∨
      Json.num 123456789 = Json.num 0 ∨ Json.num 123456789 = Json.str "") ∧
    idMsg ∉ validate_schema (.obj (JsonObj.ofList [("idNumber", Json.num 123456789)])) :=
  ⟨rfl, Or.inl rfl, idNumber_coerced _ _ rfl (Or.inl rfl)⟩

/-- Count of an element in a conditional singleton. -/
theorem count_ite_singleton (c : Prop) [Decidable c] (x y : String) :
    List.count x (if c then [y] else []) = if c ∧ y = x then 1 else 0 := by
  split
  case isTrue h => simp [List.count_cons, h]
  case isFalse h => simp [h]

/-- `check_date` never emits a string that is none of its three messages. -/
theorem count_check_date_ne (label : String) (node : JsonObj) (x : String)
    (h1 : x ≠ dayMsg label) (h2 : x ≠ monthMsg label) (h3 : x ≠ yearMsg label) :
    List.count x (check_date label node) = 0 := by
  rw [List.count_eq_zero]
  intro h
  rcases mem_check_date _ _ _ h with h | h | h
  · exact h1 h
  · exact h2 h
  · exact h3 h

/-- The day message appears in a group's issues exactly once when some
sub-field is non-empty and the day sub-field is not two digits, else not at
all. -/
theorem count_check_date_day (label : String) (node : JsonObj)
    (hm : monthMsg label ≠ dayMsg label) (hy : yearMsg label ≠ dayMsg label) :
    List.count (dayMsg label) (check_date label node) =
      if (pyGetStr node "day" ≠ "" ∨ pyGetStr node "month" ≠ "" ∨
          pyGetStr node "year" ≠ "") ∧
         ¬((pyGetStr node "day").length = 2 ∧ pyIsDigit (pyGetStr node "day") = true)
      then 1 else 0 := by
  simp only [check_date]
  split
  case isTrue h =>
    rw [List.count_append, List.count_append, count_ite_singleton, count_ite_singleton,
      count_ite_singleton]
    simp [hm, hy, h]
  case isFalse h =>
    simp [h]

/-- The month message appears in a group's issues exactly once when some
sub-field is non-empty and the month sub-field is not two digits. -/
theorem count_check_date_month (label : String) (node : JsonObj)
    (hd : dayMsg label ≠ monthMsg label) (hy : yearMsg label ≠ monthMsg label) :
    List.count (monthMsg label) (check_date label node) =
      if (pyGetStr node "day" ≠ "" ∨ pyGetStr node "month" ≠ "" ∨
          pyGetStr node "year" ≠ "") ∧
         ¬((pyGetStr node "month").length = 2 ∧ pyIsDigit (pyGetStr node "month") = true)
      then 1 else 0 := by
  simp only [check_date]
  split
  case isTrue h =>
    rw [List.count_append, List.count_append, count_ite_singleton, count_ite_singleton,
      count_ite_singleton]
    simp [hd, hy, h]
  case isFalse h =>
    simp [h]

/-- The year message appears in a group's issues exactly once when some
sub-field is non-empty and the year sub-field is not four digits. -/
theorem count_check_date_year (label : String) (node : JsonObj)
    (hd : dayMsg label ≠ yearMsg label) (hm : monthMsg label ≠ yearMsg label) :
    List.count (yearMsg label) (check_date label node) =
      if (pyGetStr node "day" ≠ "" ∨ pyGetStr node "month" ≠ "" ∨
          pyGetStr node "year" ≠ "") ∧
         ¬((pyGetStr node "year").length = 4 ∧ pyIsDigit (pyGetStr node "year") = true)
      then 1 else 0 := by
  simp only [check_date]
  split
  case isTrue h =>
    rw [List.count_append, List.count_append, count_ite_singleton, count_ite_singleton,
      count_ite_singleton]
    simp [hd, hm, h]
  case isFalse h =>
    simp [h]

/-- A date-group message occurs in the full validation output exactly as
often as in the date-group issues (the shape and idNumber issues can never
equal it). -/
theorem count_validate_obj (kvs : JsonObj) (x : String)
    (hM : ∀ s, "Missing keys/paths: " ++ s ≠ x)
    (hU : ∀ s, "Unexpected extra keys/paths: " ++ s ≠ x)
    (hid : idMsg ≠ x) :
    List.count x (validate_schema (.obj kvs)) = List.count x (date_issues kvs) := by
  simp only [validate_schema, format_issues, List.count_append]
  have h1 : List.count x (missing_issue (.obj kvs)) = 0 := by
    rw [List.count_eq_zero]
    intro h
    obtain ⟨s, hs⟩ := mem_missing_issue _ _ h
    exact hM s hs.symm
  have h2 : List.count x (extra_issue (.obj kvs)) = 0 := by
    rw [List.count_eq_zero]
    intro h
    obtain ⟨s, hs⟩ := mem_extra_issue _ _ h
    exact hU s hs.symm
  have h3 : List.count x (id_issue kvs) = 0 := by
    rw [List.count_eq_zero]
    intro h
    exact hid (mem_id_issue _ _ h).symm
  omega

/-- C2 amended: for each of the four date groups, if any of day/month/year is
non-empty then ALL THREE sub-fields are checked: day and month must be exactly
2 digits and year exactly 4 digits, a missing or empty sub-field then also
produces an issue (partial dates are NOT tolerated), with exactly one issue
per failing sub-field; if all three are empty no issue is produced. -/
theorem check_date_subfield_issue_counts (kvs : JsonObj) (key : String)
    (hkey : key ∈ dateKeys) :
    (List.count (dayMsg key) (validate_schema (.obj kvs)) =
      if (pyGetStr (dateNode kvs key) "day" ≠ "" ∨
          pyGetStr (dateNode kvs key) "month" ≠ "" ∨
          pyGetStr (dateNode kvs key) "year" ≠ "") ∧
         ¬((pyGetStr (dateNode kvs key) "day").length = 2 ∧
           pyIsDigit (pyGetStr (dateNode kvs key) "day") = true)
      then 1 else 0) ∧
    (List.count (monthMsg key) (validate_schema (.obj kvs)) =
      if (pyGetStr (dateNode kvs key) "day" ≠ "" ∨
          pyGetStr (dateNode kvs key) "month" ≠ "" ∨
          pyGetStr (dateNode kvs key) "year" ≠ "") ∧
         ¬((pyGetStr (dateNode kvs key) "month").length = 2 ∧
           pyIsDigit (pyGetStr (dateNode kvs key) "month") = true)
      then 1 else 0) ∧
    (List.count (yearMsg key) (validate_schema (.obj kvs)) =
      if (pyGetStr (dateNode kvs key) "day" ≠ "" ∨
          pyGetStr (dateNode kvs key) "month" ≠ "" ∨
          pyGetStr (dateNode kvs key) "year" ≠ "") ∧
         ¬((pyGetStr (dateNode kvs key) "year").length = 4 ∧
           pyIsDigit (pyGetStr (dateNode kvs key) "year") = true)
      then 1 else 0) := by
  simp only [dateKeys] at hkey
  fin_cases hkey
  · refine ⟨?_, ?_, ?_⟩
    · rw [count_validate_obj kvs (dayMsg "dateOfBirth")
          (fun s => append_head_ne _ s (dayMsg "dateOfBirth") 'M' 'd' rfl rfl (by decide))
          (fun s => append_head_ne _ s (dayMsg "dateOfBirth") 'U' 'd' rfl rfl (by decide)) (by decide)]
      simp only [date_issues, dateKeys, List.flatMap_cons, List.flatMap_nil,
        List.append_nil, List.count_append]
      rw [count_check_date_ne "dateOfInjury" (dateNode kvs "dateOfInjury")
          (dayMsg "dateOfBirth") (by decide) (by decide) (by decide),
        count_check_date_ne "formFillingDate" (dateNode kvs "formFillingDate")
          (dayMsg "dateOfBirth") (by decide) (by decide) (by decide),
        count_check_date_ne "formReceiptDateAtClinic" (dateNode kvs "formReceiptDateAtClinic")
          (dayMsg "dateOfBirth") (by decide) (by decide) (by decide),
        count_check_date_day "dateOfBirth" (dateNode kvs "dateOfBirth") (by decide) (by decide)]
      simp
    · rw [count_validate_obj kvs (monthMsg "dateOfBirth")
          (fun s => append_head_ne _ s (monthMsg "dateOfBirth") 'M' 'd' rfl rfl (by decide))
          (fun s => append_head_ne _ s (monthMsg "dateOfBirth") 'U' 'd' rfl rfl (by decide)) (by decide)]
      simp only [date_issues, dateKeys, List.flatMap_cons, List.flatMap_nil,
        List.append_nil, List.count_append]
      rw [count_check_date_ne "dateOfInjury" (dateNode kvs "dateOfInjury")
          (monthMsg "dateOfBirth") (by decide) (by decide) (by decide),
        count_check_date_ne "formFillingDate" (dateNode kvs "formFillingDate")
          (monthMsg "dateOfBirth") (by decide) (by decide) (by decide),
        count_check_date_ne "formReceiptDateAtClinic" (dateNode kvs "formReceiptDateAtClinic")
          (monthMsg "dateOfBirth") (by decide) (by decide) (by decide),
        count_check_date_month "dateOfBirth" (dateNode kvs "dateOfBirth") (by decide) (by decide)]
      simp
    · rw [count_validate_obj kvs (yearMsg "dateOfBirth")
          (fun s => append_head_ne _ s (yearMsg "dateOfBirth") 'M' 'd' rfl rfl (by decide))
          (fun s => append_head_ne _ s (yearMsg "dateOfBirth") 'U' 'd' rfl rfl (by decide)) (by decide)]
      simp only [date_issues, dateKeys, List.flatMap_cons, List.flatMap_nil,
        List.append_nil, List.count_append]
      rw [count_check_date_ne "dateOfInjury" (dateNode kvs "dateOfInjury")
          (yearMsg "dateOfBirth") (by decide) (by decide) (by decide),
        count_check_date_ne "formFillingDate" (dateNode kvs "formFillingDate")
          (yearMsg "dateOfBirth") (by decide) (by decide) (by decide),
        count_check_date_ne "formReceiptDateAtClinic" (dateNode kvs "formReceiptDateAtClinic")
          (yearMsg "dateOfBirth") (by decide) (by decide) (by decide),
        count_check_date_year "dateOfBirth" (dateNode kvs "dateOfBirth") (by decide) (by decide)]
      simp
  · refine ⟨?_, ?_, ?_⟩
    · rw [count_validate_obj kvs (dayMsg "dateOfInjury")
          (fun s => append_head_ne _ s (dayMsg "dateOfInjury") 'M' 'd' rfl rfl (by decide))
          (fun s => append_head_ne _ s (dayMsg "dateOfInjury") 'U' 'd' rfl rfl (by decide)) (by decide)]
      simp only [date_issues, dateKeys, List.flatMap_cons, List.flatMap_nil,
        List.append_nil, List.count_append]
      rw [count_check_date_ne "dateOfBirth" (dateNode kvs "dateOfBirth")
          (dayMsg "dateOfInjury") (by decide) (by decide) (by decide),
        count_check_date_ne "formFillingDate" (dateNode kvs "formFillingDate")
          (dayMsg "dateOfInjury") (by decide) (by decide) (by decide),
        count_check_date_ne "formReceiptDateAtClinic" (dateNode kvs "formReceiptDateAtClinic")
          (dayMsg "dateOfInjury") (by decide) (by decide) (by decide),
        count_check_date_day "dateOfInjury" (dateNode kvs "dateOfInjury") (by decide) (by decide)]
      simp
    · rw [count_validate_obj kvs (monthMsg "dateOfInjury")
          (fun s => append_head_ne _ s (monthMsg "dateOfInjury") 'M' 'd' rfl rfl (by decide))
          (fun s => append_head_ne _ s (monthMsg "dateOfInjury") 'U' 'd' rfl rfl (by decide)) (by decide)]
      simp only [date_issues, dateKeys, List.flatMap_cons, List.flatMap_nil,
        List.append_nil, List.count_append]
      rw [count_check_date_ne "dateOfBirth" (dateNode kvs "dateOfBirth")
          (monthMsg "dateOfInjury") (by decide) (by decide) (by decide),
        count_check_date_ne "formFillingDate" (dateNode kvs "formFillingDate")
          (monthMsg "dateOfInjury") (by decide) (by decide) (by decide),
        count_check_date_ne "formReceiptDateAtClinic" (dateNode kvs "formReceiptDateAtClinic")
          (monthMsg "dateOfInjury") (by decide) (by decide) (by decide),
        count_check_date_month "dateOfInjury" (dateNode kvs "dateOfInjury") (by decide) (by decide)]
      simp
    · rw [count_validate_obj kvs (yearMsg "dateOfInjury")
          (fun s => append_head_ne _ s (yearMsg "dateOfInjury") 'M' 'd' rfl rfl (by decide))
          (fun s => append_head_ne _ s (yearMsg "dateOfInjury") 'U' 'd' rfl rfl (by decide)) (by decide)]
      simp only [date_issues, dateKeys, List.flatMap_cons, List.flatMap_nil,
        List.append_nil, List.count_append]
      rw [count_check_date_ne "dateOfBirth" (dateNode kvs "dateOfBirth")
          (yearMsg "dateOfInjury") (by decide) (by decide) (by decide),
        count_check_date_ne "formFillingDate" (dateNode kvs "formFillingDate")
          (yearMsg "dateOfInjury") (by decide) (by decide) (by decide),
        count_check_date_ne "formReceiptDateAtClinic" (dateNode kvs "formReceiptDateAtClinic")
          (yearMsg "dateOfInjury") (by decide) (by decide) (by decide),
        count_check_date_year "dateOfInjury" (dateNode kvs "dateOfInjury") (by decide) (by decide)]
      simp
  · refine ⟨?_, ?_, ?_⟩
    · rw [count_validate_obj kvs (dayMsg "formFillingDate")
          (fun s => append_head_ne _ s (dayMsg "formFillingDate") 'M' 'f' rfl rfl (by decide))
          (fun s => append_head_ne _ s (dayMsg "formFillingDate") 'U' 'f' rfl rfl (by decide)) (by decide)]
      simp only [date_issues, dateKeys, List.flatMap_cons, List.flatMap_nil,
        List.append_nil, List.count_append]
      rw [count_check_date_ne "dateOfBirth" (dateNode kvs "dateOfBirth")
          (dayMsg "formFillingDate") (by decide) (by decide) (by decide),
        count_check_date_ne "dateOfInjury" (dateNode kvs "dateOfInjury")
          (dayMsg "formFillingDate") (by decide) (by decide) (by decide),
        count_check_date_ne "formReceiptDateAtClinic" (dateNode kvs "formReceiptDateAtClinic")
          (dayMsg "formFillingDate") (by decide) (by decide) (by decide),
        count_check_date_day "formFillingDate" (dateNode kvs "formFillingDate") (by decide) (by decide)]
      simp
    · rw [count_validate_obj kvs (monthMsg "formFillingDate")
          (fun s => append_head_ne _ s (monthMsg "formFillingDate") 'M' 'f' rfl rfl (by decide))
          (fun s => append_head_ne _ s (monthMsg "formFillingDate") 'U' 'f' rfl rfl (by decide)) (by decide)]
      simp only [date_issues, dateKeys, List.flatMap_cons, List.flatMap_nil,
        List.append_nil, List.count_append]
      rw [count_check_date_ne "dateOfBirth" (dateNode kvs "dateOfBirth")
          (monthMsg "formFillingDate") (by decide) (by decide) (by decide),
        count_check_date_ne "dateOfInjury" (dateNode kvs "dateOfInjury")
          (monthMsg "formFillingDate") (by decide) (by decide) (by decide),
        count_check_date_ne "formReceiptDateAtClinic" (dateNode kvs "formReceiptDateAtClinic")
          (monthMsg "formFillingDate") (by decide) (by decide) (by decide),
        count_check_date_month "formFillingDate" (dateNode kvs "formFillingDate") (by decide) (by decide)]
      simp
    · rw [count_validate_obj kvs (yearMsg "formFillingDate")
          (fun s => append_head_ne _ s (yearMsg "formFillingDate") 'M' 'f' rfl rfl (by decide))
          (fun s => append_head_ne _ s (yearMsg "formFillingDate") 'U' 'f' rfl rfl (by decide)) (by decide)]
      simp only [date_issues, dateKeys, List.flatMap_cons, List.flatMap_nil,
        List.append_nil, List.count_append]
      rw [count_check_date_ne "dateOfBirth" (dateNode kvs "dateOfBirth")
          (yearMsg "formFillingDate") (by decide) (by decide) (by decide),
        count_check_date_ne "dateOfInjury" (dateNode kvs "dateOfInjury")
          (yearMsg "formFillingDate") (by decide) (by decide) (by decide),
        count_check_date_ne "formReceiptDateAtClinic" (dateNode kvs "formReceiptDateAtClinic")
          (yearMsg "formFillingDate") (by decide) (by decide) (by decide),
        count_check_date_year "formFillingDate" (dateNode kvs "formFillingDate") (by decide) (by decide)]
      simp
  · refine ⟨?_, ?_, ?_⟩
    · rw [count_validate_obj kvs (dayMsg "formReceiptDateAtClinic")
          (fun s => append_head_ne _ s (dayMsg "formReceiptDateAtClinic") 'M' 'f' rfl rfl (by decide))
          (fun s => append_head_ne _ s (dayMsg "formReceiptDateAtClinic") 'U' 'f' rfl rfl (by decide)) (by decide)]
      simp only [date_issues, dateKeys, List.flatMap_cons, List.flatMap_nil,
        List.append_nil, List.count_append]
      rw [count_check_date_ne "dateOfBirth" (dateNode kvs "dateOfBirth")
          (dayMsg "formReceiptDateAtClinic") (by decide) (by decide) (by decide),
        count_check_date_ne "dateOfInjury" (dateNode kvs "dateOfInjury")
          (dayMsg "formReceiptDateAtClinic") (by decide) (by decide) (by decide),
        count_check_date_ne "formFillingDate" (dateNode kvs "formFillingDate")
          (dayMsg "formReceiptDateAtClinic") (by decide) (by decide) (by decide),
        count_check_date_day "formReceiptDateAtClinic" (dateNode kvs "formReceiptDateAtClinic") (by decide) (by decide)]
      simp
    · rw [count_validate_obj kvs (monthMsg "formReceiptDateAtClinic")
          (fun s => append_head_ne _ s (monthMsg "formReceiptDateAtClinic") 'M' 'f' rfl rfl (by decide))
          (fun s => append_head_ne _ s (monthMsg "formReceiptDateAtClinic") 'U' 'f' rfl rfl (by decide)) (by decide)]
      simp only [date_issues, dateKeys, List.flatMap_cons, List.flatMap_nil,
        List.append_nil, List.count_append]
      rw [count_check_date_ne "dateOfBirth" (dateNode kvs "dateOfBirth")
          (monthMsg "formReceiptDateAtClinic") (by decide) (by decide) (by decide),
        count_check_date_ne "dateOfInjury" (dateNode kvs "dateOfInjury")
          (monthMsg "formReceiptDateAtClinic") (by decide) (by decide) (by decide),
        count_check_date_ne "formFillingDate" (dateNode kvs "formFillingDate")
          (monthMsg "formReceiptDateAtClinic") (by decide) (by decide) (by decide),
        count_check_date_month "formReceiptDateAtClinic" (dateNode kvs "formReceiptDateAtClinic") (by decide) (by decide)]
      simp
    · rw [count_validate_obj kvs (yearMsg "formReceiptDateAtClinic")
          (fun s => append_head_ne _ s (yearMsg "formReceiptDateAtClinic") 'M' 'f' rfl rfl (by decide))
          (fun s => append_head_ne _ s (yearMsg "formReceiptDateAtClinic") 'U' 'f' rfl rfl (by decide)) (by decide)]
      simp only [date_issues, dateKeys, List.flatMap_cons, List.flatMap_nil,
        List.append_nil, List.count_append]
      rw [count_check_date_ne "dateOfBirth" (dateNode kvs "dateOfBirth")
          (yearMsg "formReceiptDateAtClinic") (by decide) (by decide) (by decide),
        count_check_date_ne "dateOfInjury" (dateNode kvs "dateOfInjury")
          (yearMsg "formReceiptDateAtClinic") (by decide) (by decide) (by decide),
        count_check_date_ne "formFillingDate" (dateNode kvs "formFillingDate")
          (yearMsg "formReceiptDateAtClinic") (by decide) (by decide) (by decide),
        count_check_date_year "formReceiptDateAtClinic" (dateNode kvs "formReceiptDateAtClinic") (by decide) (by decide)]
      simp

/-- C2 counterexample: in the payload `{"dateOfBirth": {"day": "01"}}` the
month sub-field is absent (and the day sub-field is well-formed), yet the
validator emits the month issue — a missing sub-field does produce an issue
once any sub-field of its group is non-empty, so partial dates are not
tolerated. -/
theorem check_date_partial_counterexample :
    ("dateOfBirth.month must be 2 digits (or empty)." ∈
      validate_schema (jObj [("dateOfBirth", jObj [("day", Json.str "01")])])) ∧
    (JsonObj.ofList [("day", Json.str "01")]).lookup "month" = none ∧
    (pyGetStr (JsonObj.ofList [("day", Json.str "01")]) "day").length = 2 ∧
    pyIsDigit (pyGetStr (JsonObj.ofList [("day", Json.str "01")]) "day") = true := by
  refine ⟨by decide, rfl, rfl, rfl⟩

/-- Witness for `check_date_subfield_issue_counts` at the empty payload
object and the `dateOfBirth` group (all sub-fields empty, so every count is
zero). -/
theorem check_date_subfield_issue_counts_witness :
    ("dateOfBirth" ∈ dateKeys) ∧
    ((List.count (dayMsg "dateOfBirth") (validate_schema (.obj JsonObj.nil)) =
      if (pyGetStr (dateNode JsonObj.nil "dateOfBirth") "day" ≠ "" ∨
          pyGetStr (dateNode JsonObj.nil "dateOfBirth") "month" ≠ "" ∨
          pyGetStr (dateNode JsonObj.nil "dateOfBirth") "year" ≠ "") ∧
         ¬((pyGetStr (dateNode JsonObj.nil "dateOfBirth") "day").length = 2 ∧
           pyIsDigit (pyGetStr (dateNode JsonObj.nil "dateOfBirth") "day") = true)
      then 1 else 0) ∧
    (List.count (monthMsg "dateOfBirth") (validate_schema (.obj JsonObj.nil)) =
      if (pyGetStr (dateNode JsonObj.nil "dateOfBirth") "day" ≠ "" ∨
          pyGetStr (dateNode JsonObj.nil "dateOfBirth") "month" ≠ "" ∨
          pyGetStr (dateNode JsonObj.nil "dateOfBirth") "year" ≠ "") ∧
         ¬((pyGetStr (dateNode JsonObj.nil "dateOfBirth") "month").length = 2 ∧
           pyIsDigit (pyGetStr (dateNode JsonObj.nil "dateOfBirth") "month") = true)
      then 1 else 0) ∧
    (List.count (yearMsg "dateOfBirth") (validate_schema (.obj JsonObj.nil)) =
      if (pyGetStr (dateNode JsonObj.nil "dateOfBirth") "day" ≠ "" ∨
          pyGetStr (dateNode JsonObj.nil "dateOfBirth") "month" ≠ "" ∨
          pyGetStr (dateNode JsonObj.nil "dateOfBirth") "year" ≠ "") ∧
         ¬((pyGetStr (dateNode JsonObj.nil "dateOfBirth") "year").length = 4 ∧
           pyIsDigit (pyGetStr (dateNode JsonObj.nil "dateOfBirth") "year") = true)
      then 1 else 0)) :=
  ⟨by decide, check_date_subfield_issue_counts JsonObj.nil "dateOfBirth" (by decide)⟩

end KPMG
